import Mathlib

/-!
# Verification of the termichat protocol translation layer

Shallow embedding of the converter module of `packages/core/src/models`
(`ModelConverter`, the `util.ts` helpers) and of the token estimator of
the custom LLM content generator, together with theorems settling the
specification claims about them.

JavaScript conventions are modelled explicitly:
* optional / possibly-`undefined` fields become `Option`,
* string truthiness (`s` truthy iff `s ≠ ""`) is spelled out where the
  source relies on it,
* `String.prototype.split`, `indexOf`, `lastIndexOf`, `substring`,
  `trim` and the regex scans of the token estimator are re-implemented
  over `List Char`,
* a function that can throw a `TypeError` at runtime returns `Option`
  (`none` = crash).
-/

namespace Termichat

/-- JSON-like values: the opaque payloads (`args` records, parse results)
that the converter passes through without inspecting, and the
representation of JSON-Schema declarations fed to the schema compiler. -/
inductive Json where
  | null : Json
  | bool (b : Bool) : Json
  | num (n : Int) : Json
  | str (s : String) : Json
  | arr (xs : List Json) : Json
  | obj (kvs : List (String × Json)) : Json

/-- `inlineData` sub-object of a `Part` (base64 image payloads). -/
structure InlineData where
  mimeType : Option String
  data : Option String

/-- `functionCall` sub-object of a `Part`. -/
structure FunctionCallField where
  name : Option String
  args : Option Json

/-- `response` sub-object of a `functionResponse`. -/
structure FunctionResponseBody where
  output : Option String
  error : Option String

/-- `functionResponse` sub-object of a `Part`. -/
structure FunctionResponseField where
  id : Option String
  name : Option String
  response : Option FunctionResponseBody

/-- A Gemini `Part`: a record of optional fields (`none` = field absent). -/
structure Part where
  text : Option String := none
  inlineData : Option InlineData := none
  functionCall : Option FunctionCallField := none
  functionResponse : Option FunctionResponseField := none

/-- A Gemini `Content` block.  `role` and `parts` are both optional in the
`@google/genai` type; an object counts as a `Content` for the normalizer
exactly when it has a `parts` key. -/
structure Content where
  role : Option String
  parts : Option (List Part)

/-- One element of a contents list: a bare string, an object exposing a
`parts` field, or any other (part-like) object.  This mirrors the runtime
shape tests `typeof item === 'string'` / `'parts' in item` of
`normalizeContents`. -/
inductive ContentItem where
  | str (s : String) : ContentItem
  | content (c : Content) : ContentItem
  | part (p : Part) : ContentItem

/-- `ContentListUnion`: either a single item or an array of items. -/
inductive ContentListUnion where
  | one (item : ContentItem) : ContentListUnion
  | many (items : List ContentItem) : ContentListUnion

/-- Normalization of a single non-array contents element, exactly the
three branches of `normalizeContents` (string / has-`parts` / other). -/
def normalizeItem (item : ContentItem) : Content :=
  match item with
  | .str s => { role := some "user", parts := some [{ text := some s }] }
  | .content c => c
  | .part p => { role := some "user", parts := some [p] }

/-- `normalizeContents` from `util.ts`: coerce any accepted contents value
to a `Content` array. -/
def normalizeContents (contents : ContentListUnion) : List Content :=
  match contents with
  | .many items => items.map normalizeItem
  | .one item => [normalizeItem item]

/-- `isValidFunctionCall` from `util.ts`. -/
def isValidFunctionCall (part : Part) : Bool :=
  match part.functionCall with
  | none => false
  | some fc => fc.name.isSome && fc.args.isSome

/-- `isValidFunctionResponse` from `util.ts`. -/
def isValidFunctionResponse (part : Part) : Bool :=
  match part.functionResponse with
  | none => false
  | some fr =>
    fr.id.isSome && fr.name.isSome &&
      (match fr.response with
       | none => false
       | some r => r.output.isSome || r.error.isSome)

/-- One `tool-result` entry of a `tool` message. -/
structure ToolResultEntry where
  toolCallId : Option String
  toolName : Option String
  result : String

/-- One `tool-call` entry of an assistant tool-call message. -/
structure ToolCallEntry where
  toolCallId : String
  toolName : Option String
  args : Option Json

/-- AI-SDK `CoreMessage`, restricted to the shapes the converter emits:
plain text messages per role, `tool` messages, a `user` message carrying
one decoded image, and an `assistant` message carrying tool calls. -/
inductive ChatMessage where
  | system (content : String) : ChatMessage
  | user (content : String) : ChatMessage
  | assistantText (content : String) : ChatMessage
  | tool (results : List ToolResultEntry) : ChatMessage
  | userImage (image : List Nat) (mimeType : String) : ChatMessage
  | assistantToolCalls (calls : List ToolCallEntry) : ChatMessage

/-- Value of a base64 alphabet character, `none` for characters outside
the alphabet (they are skipped, as `Buffer.from(…, 'base64')` does). -/
def base64DigitVal (c : Char) : Option Nat :=
  if 'A' ≤ c ∧ c ≤ 'Z' then some (c.toNat - 65)
  else if 'a' ≤ c ∧ c ≤ 'z' then some (c.toNat - 97 + 26)
  else if '0' ≤ c ∧ c ≤ '9' then some (c.toNat - 48 + 52)
  else if c = '+' then some 62
  else if c = '/' then some 63
  else none

/-- Reassemble bytes from a list of 6-bit values (a trailing group of two
or three values contributes one or two bytes). -/
def base64DecodeVals : List Nat → List Nat
  | a :: b :: c :: d :: rest =>
    (a * 4 + b / 16) :: ((b % 16) * 16 + c / 4) :: ((c % 4) * 64 + d) ::
      base64DecodeVals rest
  | [a, b] => [a * 4 + b / 16]
  | [a, b, c] => [a * 4 + b / 16, (b % 16) * 16 + c / 4]
  | _ => []

/-- `Buffer.from(data, 'base64')`: decode a base64 payload to raw bytes. -/
def base64Decode (s : String) : List Nat :=
  base64DecodeVals (s.toList.filterMap base64DigitVal)

/-- `String.prototype.startsWith`, over the character lists. -/
def jsStartsWith (s pre : String) : Bool :=
  pre.toList.isPrefixOf s.toList

/-- The role string of a block after the `model` → `assistant` translation
of `toOpenAIMessages` (`undefined` roles pass through). -/
def mapRole (role : Option String) : Option String :=
  if role = some "model" then some "assistant" else role

/-- `processTextParts`, text assembly: the `text` values of all parts
carrying a `text` field, joined with newlines. -/
def joinedText (parts : List Part) : String :=
  String.intercalate "\n" ((parts.filter (fun p => p.text.isSome)).map (fun p => p.text.getD ""))

/-- `processTextParts`: all parts carrying a `text` field are joined into
one message of the block's role; roles other than
`user`/`system`/`assistant` emit nothing. -/
def textMessages (role : Option String) (parts : List Part) : List ChatMessage :=
  if (parts.filter (fun p => p.text.isSome)).isEmpty then []
  else
    match role with
    | some "user" => [ChatMessage.user (joinedText parts)]
    | some "system" => [ChatMessage.system (joinedText parts)]
    | some "assistant" => [ChatMessage.assistantText (joinedText parts)]
    | _ => []

/-- The `tool-result` entry built for one valid function-response part:
a non-empty `error` string takes the `Error: `-prefixed branch, anything
else falls back to `output || ''`. -/
def toolResultOf (fr : FunctionResponseField) : ToolResultEntry :=
  let r := fr.response.getD { output := none, error := none }
  { toolCallId := fr.id
    toolName := fr.name
    result :=
      if (r.error.getD "") = "" then r.output.getD ""
      else "Error: " ++ r.error.getD "" }

/-- `processImageParts`: the first part carrying an `inlineData` field is
examined; it yields one `user` image message only when its mime type
starts with `image/` and its data is a non-empty (truthy) string. -/
def imageMessages (parts : List Part) : List ChatMessage :=
  match (parts.filter (fun p => p.inlineData.isSome)).head? with
  | none => []
  | some p =>
    match p.inlineData with
    | none => []
    | some d =>
      if jsStartsWith (d.mimeType.getD "") "image/" && ((d.data.getD "") != "")
      then [ChatMessage.userImage (base64Decode (d.data.getD "")) (d.mimeType.getD "")]
      else []

/-- `processFunctionResponseParts`: one `tool` message per valid
function-response part, followed (only when at least one such part
exists) by the image message of `processImageParts`. -/
def functionResponseMessages (parts : List Part) : List ChatMessage :=
  if (parts.filter isValidFunctionResponse).isEmpty then []
  else
    (parts.filter isValidFunctionResponse).map
        (fun p =>
          ChatMessage.tool
            [toolResultOf (p.functionResponse.getD { id := none, name := none, response := none })])
      ++ imageMessages parts

/-- `processFunctionCallParts`: all valid function-call parts collapse
into one assistant message; `gid i` stands for the random id suffix drawn
for the `i`-th call of the block. -/
def functionCallMessages (gid : Nat → String) (parts : List Part) : List ChatMessage :=
  if (parts.filter isValidFunctionCall).isEmpty then []
  else
    [ChatMessage.assistantToolCalls
      ((parts.filter isValidFunctionCall).enum.map (fun ip =>
        { toolCallId := "call_" ++ gid ip.1
          toolName := (ip.2.functionCall.getD { name := none, args := none }).name
          args := (ip.2.functionCall.getD { name := none, args := none }).args }))]

/-- Messages contributed by one content block, in the order the three
passes of `toOpenAIMessages` push them. -/
def blockMessages (gid : Nat → String) (c : Content) : List ChatMessage :=
  textMessages (mapRole c.role) (c.parts.getD [])
    ++ functionResponseMessages (c.parts.getD [])
    ++ functionCallMessages gid (c.parts.getD [])

/-- The request fields `toOpenAIMessages` reads.  A `systemInstruction`
that is absent or not a string is modelled as `none`. -/
structure GenRequest where
  contents : ContentListUnion
  systemInstruction : Option String

/-- `ModelConverter.toOpenAIMessages`: optional system message, then the
per-block messages of every normalized content block, in order. -/
def toOpenAIMessages (gid : Nat → String) (request : GenRequest) : List ChatMessage :=
  (match request.systemInstruction with
   | some s => if s = "" then [] else [ChatMessage.system s]
   | none => [])
    ++ (normalizeContents request.contents).flatMap (blockMessages gid)

/-- Backend usage block (`GenerateTextResult.usage`). -/
structure UsageInfo where
  promptTokens : Nat
  completionTokens : Nat
  totalTokens : Nat

/-- One backend-reported tool call. -/
structure BackendToolCall where
  toolName : String
  args : Json

/-- Backend text result consumed by `toGeminiResponse`. -/
structure GenerateTextResult where
  text : String
  usage : Option UsageInfo
  toolCalls : Option (List BackendToolCall)

/-- Gemini usage metadata. -/
structure UsageMetadata where
  promptTokenCount : Nat
  candidatesTokenCount : Nat
  totalTokenCount : Nat

/-- One response candidate. -/
structure Candidate where
  content : Content
  index : Nat
  safetyRatings : List Unit

/-- Gemini response envelope (the two fields `toGeminiResponse` sets). -/
structure GenerateContentResponse where
  candidates : Option (List Candidate)
  usageMetadata : Option UsageMetadata

/-- `ModelConverter.toGeminiResponse`, parts assembly: a text part (if
the text is truthy) followed by one function-call part per tool call. -/
def responseParts (result : GenerateTextResult) : List Part :=
  (if result.text = "" then [] else [{ text := some result.text }])
    ++ (if (result.toolCalls.getD []).isEmpty then []
        else (result.toolCalls.getD []).map
          (fun tc => { functionCall := some { name := some tc.toolName, args := some tc.args } }))

/-- `ModelConverter.toGeminiResponse` (continued): a candidate is emitted
only when some part was built; usage metadata is always set,
`|| 0`-defaulted. -/
def toGeminiResponse (result : GenerateTextResult) : GenerateContentResponse :=
  { candidates :=
      if (responseParts result).isEmpty then none
      else some [{ content := { role := some "model", parts := some (responseParts result) }
                   index := 0
                   safetyRatings := [] }]
    usageMetadata :=
      some
        { promptTokenCount := (result.usage.map (·.promptTokens)).getD 0
          candidatesTokenCount := (result.usage.map (·.completionTokens)).getD 0
          totalTokenCount := (result.usage.map (·.totalTokens)).getD 0 } }

/-- The input elements a `ContentListUnion` consists of. -/
def contentItems : ContentListUnion → List ContentItem
  | .one item => [item]
  | .many items => items

/-- Rank of a message kind in the per-block emission order of
`toOpenAIMessages`: plain text messages, tool-result messages, the image
message, the tool-call message. -/
def messageRank : ChatMessage → Nat
  | .system _ => 0
  | .user _ => 0
  | .assistantText _ => 0
  | .tool _ => 1
  | .userImage _ _ => 2
  | .assistantToolCalls _ => 3

/-- Is this message the follow-up `user` image message? -/
def isImageMessage : ChatMessage → Bool
  | .userImage _ _ => true
  | _ => false

/-- Is this message the collapsed assistant tool-call message? -/
def isToolCallMessage : ChatMessage → Bool
  | .assistantToolCalls _ => true
  | _ => false

/-- Does an image message occur strictly before a tool-call message? -/
def imageOccursBeforeCalls : List ChatMessage → Bool
  | [] => false
  | m :: rest =>
    if isImageMessage m then rest.any isToolCallMessage
    else imageOccursBeforeCalls rest

/-- Does the list contain an image message at all? -/
def hasImageMessage (msgs : List ChatMessage) : Bool :=
  msgs.any isImageMessage

/-- A part holding a text field (concrete-input helper). -/
def textPart (s : String) : Part :=
  { text := some s }

/-- A part holding a function response (concrete-input helper). -/
def frPart (id name : String) (output error : Option String) : Part :=
  { functionResponse := some { id := some id, name := some name, response := some { output := output, error := error } } }

/-- A part holding a function call (concrete-input helper). -/
def fcPart (name : String) : Part :=
  { functionCall := some { name := some name, args := some (Json.obj []) } }

/-- A part holding inline data (concrete-input helper). -/
def imgPart (mime data : String) : Part :=
  { inlineData := some { mimeType := some mime, data := some data } }

/-- The concrete function-response part of the C3 witness. -/
def c3part : Part :=
  frPart "1" "t" (some "ok") (some "bad")

/-- The JavaScript whitespace class `\s` (WhiteSpace ∪ LineTerminator). -/
def isJsSpace (c : Char) : Bool :=
  decide (c.toNat = 32 ∨ c.toNat = 9 ∨ c.toNat = 10 ∨ c.toNat = 11 ∨ c.toNat = 12 ∨
    c.toNat = 13 ∨ c.toNat = 160 ∨ c.toNat = 5760 ∨
    (8192 ≤ c.toNat ∧ c.toNat ≤ 8202) ∨ c.toNat = 8232 ∨ c.toNat = 8233 ∨
    c.toNat = 8239 ∨ c.toNat = 8287 ∨ c.toNat = 12288 ∨ c.toNat = 65279)

/-- `String.prototype.trim` over a character list. -/
def trimL (l : List Char) : List Char :=
  ((l.dropWhile isJsSpace).reverse.dropWhile isJsSpace).reverse

/-- `String.prototype.includes`: does `pat` occur as a contiguous
substring of `hay`? -/
def containsSub (hay pat : List Char) : Bool :=
  match hay with
  | [] => pat.isEmpty
  | c :: t => pat.isPrefixOf (c :: t) || containsSub t pat

/-- Fuelled splitting scanner (the fuel only bounds the recursion depth;
`jsSplit` supplies enough of it). -/
def jsSplitF (pat : List Char) : Nat → List Char → List (List Char)
  | _, [] => [[]]
  | 0, hay => [hay]
  | fuel + 1, c :: t =>
    if pat ≠ [] ∧ pat.isPrefixOf (c :: t) then
      [] :: jsSplitF pat fuel ((c :: t).drop pat.length)
    else
      match jsSplitF pat fuel t with
      | [] => [[c]]
      | s :: rest => (c :: s) :: rest

/-- `String.prototype.split`: split `hay` at every (leftmost,
non-overlapping) occurrence of the separator `pat`. -/
def jsSplit (pat hay : List Char) : List (List Char) :=
  jsSplitF pat hay.length hay

/-- `String.prototype.indexOf`: position of the first occurrence. -/
def firstIdxSub (hay pat : List Char) : Option Nat :=
  match hay with
  | [] => if pat.isEmpty then some 0 else none
  | c :: t => if pat.isPrefixOf (c :: t) then some 0 else (firstIdxSub t pat).map (· + 1)

/-- `String.prototype.lastIndexOf`: position of the last occurrence. -/
def lastIdxSub (hay pat : List Char) : Option Nat :=
  ((List.range (hay.length + 1)).filter (fun i => pat.isPrefixOf (hay.drop i))).getLast?

/-- `String.prototype.substring`: clamps both indices to the length and
swaps them when start exceeds end. -/
def jsSubstring (l : List Char) (a b : Nat) : List Char :=
  (l.take (max (min a l.length) (min b l.length))).drop (min (min a l.length) (min b l.length))

/-- The literal `<think>` opening tag. -/
def thinkOpen : List Char := "<think>".toList

/-- The literal `</think>` closing tag. -/
def thinkClose : List Char := "</think>".toList

/-- The literal `<thinking>` opening tag. -/
def thinkingOpen : List Char := "<thinking>".toList

/-- The literal `</thinking>` closing tag. -/
def thinkingClose : List Char := "</thinking>".toList

/-- One loop iteration of `extractAnswer` for the tag pair `st`/`en`:
`partsBefore = text.split(st)`, `partsAfter = partsBefore[1].split(en)`,
result `(partsBefore[0].trim() + ' ' + partsAfter[1].trim()).trim()`.
`none` models the `TypeError` thrown when `partsAfter[1]` is absent. -/
def extractAnswerTags (st en text : List Char) : Option (List Char) :=
  match jsSplit st text with
  | b :: p1 :: _ =>
    match jsSplit en p1 with
    | _ :: a1 :: _ => some (trimL (trimL b ++ [' '] ++ trimL a1))
    | _ => none
  | _ => none

/-- `extractAnswer` from `util.ts`: strip the first matching
`<think>…</think>` or `<thinking>…</thinking>` pair; `none` models the
uncaught `TypeError` on `partsAfter[1].trim()`. -/
def extractAnswer (text : List Char) : Option (List Char) :=
  if containsSub text thinkOpen && containsSub text thinkClose then
    extractAnswerTags thinkOpen thinkClose text
  else if containsSub text thinkingOpen && containsSub text thinkingClose then
    extractAnswerTags thinkingOpen thinkingClose text
  else some text

/-- The think-tag strip step at the top of `extractJsonFromLLMOutput`:
applied only when the trimmed output starts with `<think`. -/
def strippedOutput (output : List Char) : Option (List Char) :=
  if "<think".toList.isPrefixOf (trimL output) then extractAnswer output else some output

/-- `extractJsonFromLLMOutput` from `util.ts`, parametric in the JSON
parser (`JSON.parse` modelled as `parse`, `none` = parse exception).
Result: `none` = the strip step crashed; `some none` = `undefined`
(format or parse failure); `some (some j)` = extracted value. -/
def extractJsonFromLLMOutput (parse : List Char → Option Json) (output : List Char) :
    Option (Option Json) :=
  match strippedOutput output with
  | none => none
  | some out =>
    match parse out with
    | some j => some (some j)
    | none =>
      match firstIdxSub out "```json".toList, lastIdxSub out "```".toList with
      | some s, some e =>
        (match parse (jsSubstring out (s + 7) e) with
         | some j => some (some j)
         | none => some none)
      | _, _ => some none

/-- Does `pat` have a non-trivial border, i.e. a non-empty proper prefix
that is also a suffix?  Border-free separators admit no occurrence
straddling a known occurrence, which the splitting lemmas rely on. -/
def hasBorder (pat : List Char) : Bool :=
  (List.range pat.length).any
    (fun k => decide (0 < k) && (pat.take k == pat.drop (pat.length - k)))

/-- ASCII letter (`[a-zA-Z]`). -/
def isAsciiLetter (c : Char) : Bool :=
  decide ((97 ≤ c.toNat ∧ c.toNat ≤ 122) ∨ (65 ≤ c.toNat ∧ c.toNat ≤ 90))

/-- ASCII digit (`\d`). -/
def isDigitCh (c : Char) : Bool :=
  decide (48 ≤ c.toNat ∧ c.toNat ≤ 57)

/-- CJK ideograph range `一`–`鿿`. -/
def isCJKCh (c : Char) : Bool :=
  decide (19968 ≤ c.toNat ∧ c.toNat ≤ 40959)

/-- Word character for `\b` boundaries: letter, digit or underscore. -/
def isWordCh (c : Char) : Bool :=
  isAsciiLetter c || isDigitCh c || decide (c.toNat = 95)

/-- The fixed punctuation set of the token estimator's regex
(code points of `.,!?;:"'(){}[]<>@#$%^&*-_+=~\x60|\/`). -/
def isPunctCh (c : Char) : Bool :=
  [46, 44, 33, 63, 59, 58, 34, 39, 40, 41, 123, 125, 91, 93, 60, 62, 64, 35, 36, 37,
    94, 38, 42, 45, 95, 43, 61, 126, 96, 124, 92, 47].contains c.toNat

/-- Scanner step for the global regex `[a-zA-Z]+[-apostrophe-]?[a-zA-Z]*`.
States: 0 = outside a match, 1 = in the leading letter run, 2 = in the
letter run after the apostrophe, 3 = just consumed the apostrophe.  The
count increases when a match starts (a letter read outside a match). -/
def wordScanStep : Nat × Nat → Char → Nat × Nat
  | (st, n), c =>
    if isAsciiLetter c then
      if st = 0 then (1, n + 1)
      else if st = 1 then (1, n)
      else (2, n)
    else if c.toNat = 39 then
      if st = 1 then (3, n) else (0, n)
    else (0, n)

/-- Number of English word tokens (matches of the word regex). -/
def countEnglishWords (l : List Char) : Nat :=
  (l.foldl wordScanStep (0, 0)).2

/-- Number of CJK ideographs. -/
def countCJK (l : List Char) : Nat :=
  (l.filter isCJKCh).length

/-- Scanner step for the global regex `\bDIGITS\b`.  States: 0 = after a
non-word character (or at the start), 1 = after a word character outside
a digit run, 2 = in a digit run with a valid left boundary, 3 = in a
digit run with an invalid left boundary.  A count is registered when a
valid run ends at a non-word character (or at the end of input). -/
def numScanStep : Nat × Nat → Char → Nat × Nat
  | (st, n), c =>
    if isDigitCh c then
      if st = 0 ∨ st = 2 then (2, n) else (3, n)
    else if isWordCh c then (1, n)
    else if st = 2 then (0, n + 1)
    else (0, n)

/-- Number of standalone numeric tokens (matches of `\bDIGITS\b`). -/
def countStandaloneNumbers (l : List Char) : Nat :=
  match l.foldl numScanStep (0, 0) with
  | (st, n) => if st = 2 then n + 1 else n

/-- Number of punctuation characters from the fixed set. -/
def countPunct (l : List Char) : Nat :=
  (l.filter isPunctCh).length

/-- Scanner step for the whitespace-run regex `\s+` (count of maximal
whitespace runs). -/
def spaceRunStep : Bool × Nat → Char → Bool × Nat
  | (inRun, n), c =>
    if isJsSpace c then (true, if inRun then n else n + 1)
    else (false, n)

/-- Number of whitespace runs. -/
def countSpaceRuns (l : List Char) : Nat :=
  (l.foldl spaceRunStep (false, 0)).2

/-- `Math.ceil` on exact rationals (every argument in this file is
non-negative). -/
def ratCeil (q : ℚ) : ℤ :=
  (((q.num + (q.den : ℤ) - 1).toNat / q.den : ℕ) : ℤ)

/-- The token estimate over the concatenated text, as `countTokens`
computes it: `Math.ceil(words*1.2 + cjk*1 + numbers*0.8 + punct*0.5 +
Math.ceil(spaceRuns/5))`, with exact rational arithmetic in place of
JavaScript floats. -/
def countTokensText (text : List Char) : ℤ :=
  ratCeil ((6 / 5 : ℚ) * countEnglishWords text + countCJK text +
    (4 / 5 : ℚ) * countStandaloneNumbers text + (1 / 2 : ℚ) * countPunct text +
    ((ratCeil ((countSpaceRuns text : ℚ) / 5) : ℤ) : ℚ))

/-- `String(content)` of one message as `countTokens` joins contents:
string contents pass through, array contents stringify to comma-joined
`[object Object]` entries. -/
def messageContentString : ChatMessage → String
  | .system s => s
  | .user s => s
  | .assistantText s => s
  | .tool rs => String.intercalate "," (rs.map (fun _ => "[object Object]"))
  | .userImage _ _ => "[object Object]"
  | .assistantToolCalls cs => String.intercalate "," (cs.map (fun _ => "[object Object]"))

/-- The concatenated message text of a request
(`messages.map((m) => m.content).join(' ')`). -/
def requestText (gid : Nat → String) (request : GenRequest) : List Char :=
  (String.intercalate " " ((toOpenAIMessages gid request).map messageContentString)).toList

/-- `CustomLLMContentGenerator.countTokens`: the heuristic token estimate
of a request. -/
def countTokens (gid : Nat → String) (request : GenRequest) : ℤ :=
  countTokensText (requestText gid request)

/-- The token formula exactly as the claim words it (spec-side
definition, for comparison with `countTokensText`): one single ceiling
over the weighted sum, the whitespace-run term not rounded inside. -/
def claimedTokens (text : List Char) : ℤ :=
  ratCeil ((6 / 5 : ℚ) * countEnglishWords text + countCJK text +
    (4 / 5 : ℚ) * countStandaloneNumbers text + (1 / 2 : ℚ) * countPunct text +
    (countSpaceRuns text : ℚ) / 5)

/-- The Zod schemas `convertJsonSchemaToZod` / `jsonTypeToZod` build:
one constructor per `z.…` combinator the code uses. -/
inductive ZodTy where
  | any : ZodTy
  | string : ZodTy
  | enum (values : List Json) : ZodTy
  | number : ZodTy
  | boolean : ZodTy
  | array (item : ZodTy) : ZodTy
  | object (shape : List (String × ZodTy)) : ZodTy
  | optional (inner : ZodTy) : ZodTy
  | described (description : Json) (inner : ZodTy) : ZodTy

/-- Is the schema marked `.optional()` at the top level? -/
def isOptionalSchema : ZodTy → Bool
  | .optional _ => true
  | _ => false

/-- JavaScript truthiness of a JSON value. -/
def jsTruthy : Json → Bool
  | .null => false
  | .bool b => b
  | .num n => n != 0
  | .str s => s != ""
  | .arr _ => true
  | .obj _ => true

/-- Property access `j[k]` on a JSON value (`none` = key absent or the
value is not an object). -/
def getField (j : Json) (k : String) : Option Json :=
  match j with
  | .obj kvs => (kvs.find? (fun kv => kv.1 == k)).map (·.2)
  | _ => none

/-- `typeof j === 'object' && j` (the values the compiler treats as
objects: arrays and plain objects; `null` is falsy). -/
def isObjLike : Json → Bool
  | .obj _ => true
  | .arr _ => true
  | _ => false

/-- `Object.entries` of a JSON object (arrays yield indexed entries, as
in JavaScript). -/
def jsEntries : Json → Option (List (String × Json))
  | .obj kvs => some kvs
  | .arr xs => some (((List.range xs.length).zip xs).map (fun ix => (toString ix.1, ix.2)))
  | _ => none

/-- The usable `properties` entries of a schema declaration (`none` when
the `properties` field is absent, not an object, or falsy). -/
def schemaEntries (j : Json) : Option (List (String × Json)) :=
  match getField j "properties" with
  | some v => jsEntries v
  | none => none

/-- The `required` list of a schema (`[]` unless an array is present). -/
def requiredOf (j : Json) : List Json :=
  match getField j "required" with
  | some (.arr xs) => xs
  | _ => []

/-- `Set(required).has(key)` with JavaScript SameValueZero: only a string
element equal to the key matches. -/
def requiredHas (xs : List Json) (k : String) : Bool :=
  xs.any (fun v => match v with | .str s => s == k | _ => false)

/-- The raw value list handed to `z.enum` (a non-array `enum` value would
throw inside zod; it is modelled as the empty value list). -/
def enumValues : Json → List Json
  | .arr xs => xs
  | _ => []

/-- `type` field of a declaration when it is a string (any other value
falls to the `switch` default). -/
def typeOf (p : Json) : Option String :=
  match getField p "type" with
  | some (.str s) => some s
  | _ => none

/-- `.describe(description)` applied when a truthy `description` field is
present. -/
def describeWrap (p : Json) (base : ZodTy) : ZodTy :=
  match getField p "description" with
  | some d => if jsTruthy d then ZodTy.described d base else base
  | none => base

/-- `ModelConverter.jsonTypeToZod`, with `convertJsonSchemaToZod`'s body
inlined in the `object` case (the code calls back into it there). -/
def jsonTypeToZod (p : Json) : ZodTy :=
  if isObjLike p then
    describeWrap p
      (match typeOf p with
       | some "string" =>
         (match getField p "enum" with
          | some e => if jsTruthy e then ZodTy.enum (enumValues e) else ZodTy.string
          | none => ZodTy.string)
       | some "number" => ZodTy.number
       | some "integer" => ZodTy.number
       | some "boolean" => ZodTy.boolean
       | some "object" =>
         (match h : schemaEntries p with
          | some entries =>
            ZodTy.object (entries.attach.map (fun kv =>
              (kv.1.1,
               if requiredHas (requiredOf p) kv.1.1 then jsonTypeToZod kv.1.2
               else ZodTy.optional (jsonTypeToZod kv.1.2))))
          | none => ZodTy.object [])
       | some "array" =>
         ZodTy.array
           (match hi : getField p "items" with
            | some items => jsonTypeToZod items
            | none => ZodTy.any)
       | _ => ZodTy.any)
  else ZodTy.any
termination_by sizeOf p
decreasing_by
  all_goals
    have hv : ∀ (j : Json) (k : String) (v : Json), getField j k = some v →
        sizeOf v < sizeOf j := by
      intro j k v hg
      cases j with
      | obj kvs =>
        simp only [getField] at hg
        rcases hfind : kvs.find? (fun kv => kv.1 == k) with _ | kv'
        · rw [hfind] at hg
          cases hg
        · rw [hfind] at hg
          have hmem := List.mem_of_find?_eq_some hfind
          have h1 := List.sizeOf_lt_of_mem hmem
          rcases kv' with ⟨k2, v2⟩
          simp at hg
          subst hg
          simp at h1 ⊢
          omega
      | null => simp [getField] at hg
      | bool b => simp [getField] at hg
      | num n => simp [getField] at hg
      | str s => simp [getField] at hg
      | arr xs => simp [getField] at hg
  all_goals
    have hve : ∀ (v : Json) (entries : List (String × Json)) (k : String) (w : Json),
        jsEntries v = some entries → (k, w) ∈ entries → sizeOf w < sizeOf v := by
      intro v entries k w hj hmem
      cases v with
      | arr xs =>
        simp only [jsEntries, Option.some.injEq] at hj
        subst hj
        obtain ⟨a, ha, heq⟩ := List.mem_map.mp hmem
        rcases a with ⟨i, x⟩
        have hw : x = w := congrArg Prod.snd heq
        subst hw
        have hx := (List.of_mem_zip ha).2
        have h1 := List.sizeOf_lt_of_mem hx
        simp
        omega
      | obj kvs =>
        simp only [jsEntries, Option.some.injEq] at hj
        subst hj
        have h1 := List.sizeOf_lt_of_mem hmem
        simp at h1 ⊢
        omega
      | null => simp [jsEntries] at hj
      | bool b => simp [jsEntries] at hj
      | num n => simp [jsEntries] at hj
      | str s => simp [jsEntries] at hj
  · obtain ⟨⟨k1, v1⟩, hkv⟩ := kv
    unfold schemaEntries at h
    rcases hg : getField p "properties" with _ | v
    · rw [hg] at h
      cases h
    · rw [hg] at h
      have s1 := hve v entries k1 v1 h hkv
      have s2 := hv p "properties" v hg
      simp
      omega
  · obtain ⟨⟨k1, v1⟩, hkv⟩ := kv
    unfold schemaEntries at h
    rcases hg : getField p "properties" with _ | v
    · rw [hg] at h
      cases h
    · rw [hg] at h
      have s1 := hve v entries k1 v1 h hkv
      have s2 := hv p "properties" v hg
      simp
      omega
  · exact hv p "items" items hi

/-- `ModelConverter.convertJsonSchemaToZod`: compile a JSON-Schema-like
declaration (possibly absent) to a Zod object schema; unusable shapes
compile to the empty object schema. -/
def convertJsonSchemaToZod (j : Option Json) : ZodTy :=
  match j with
  | none => ZodTy.object []
  | some s =>
    if isObjLike s then
      match schemaEntries s with
      | some entries =>
        ZodTy.object (entries.map (fun kv =>
          (kv.1,
           if requiredHas (requiredOf s) kv.1 then jsonTypeToZod kv.2
           else ZodTy.optional (jsonTypeToZod kv.2))))
      | none => ZodTy.object []
    else ZodTy.object []

/-- The JSON-Schema declaration of the C7 witness:
`type:"object", properties: x:(type:"string"), required:["x"]`. -/
def c7schema : Json :=
  Json.obj [("type", Json.str "object"),
    ("properties", Json.obj [("x", Json.obj [("type", Json.str "string")])]),
    ("required", Json.arr [Json.str "x"])]

/-- C2, counterexample.  The claim asserts every output block of
`normalizeContents` has a `role` present; a content object that exposes a
`parts` field but no `role` passes through unchanged, role-less. -/
theorem claim_C2_counterexample :
    (normalizeContents
          (ContentListUnion.one (ContentItem.content { role := none, parts := some [] }))).all
        (fun c => c.role.isSome) = false := rfl

/-- C2, amended: every block produced by `normalizeContents` either has a
`role` present or is one of the input elements that already exposed a
`parts` field and was passed through unchanged. -/
theorem claim_C2 (input : ContentListUnion) (c : Content)
    (hc : c ∈ normalizeContents input) :
    c.role.isSome = true ∨ ContentItem.content c ∈ contentItems input := by
  cases input with
  | one item =>
    simp only [normalizeContents, List.mem_singleton] at hc
    cases item with
    | str s => left; rw [hc]; rfl
    | content c' => right; simp [normalizeItem] at hc; rw [hc]; simp [contentItems]
    | part p => left; rw [hc]; rfl
  | many items =>
    simp only [normalizeContents, List.mem_map] at hc
    obtain ⟨item, hitem, heq⟩ := hc
    cases item with
    | str s => left; rw [← heq]; rfl
    | content c' => right; simp [normalizeItem] at heq; rw [← heq]; simpa [contentItems]
    | part p => left; rw [← heq]; rfl

/-- C2, witness. -/
theorem claim_C2_witness :
    (Content.mk (some "user") (some [{ text := some "hi" }])).role.isSome = true ∨
      ContentItem.content (Content.mk (some "user") (some [{ text := some "hi" }])) ∈
        contentItems (ContentListUnion.one (ContentItem.str "hi")) :=
  claim_C2 (ContentListUnion.one (ContentItem.str "hi")) _
    (by simp [normalizeContents, normalizeItem])

/-- C3: a function-response part carrying both an `output` string and a
non-empty `error` string is converted to a `tool` message whose result is
`"Error: "` followed by the error text. -/
theorem claim_C3 (parts : List Part) (p : Part) (fr : FunctionResponseField)
    (r : FunctionResponseBody) (o e : String)
    (hp : p ∈ parts)
    (hfr : p.functionResponse = some fr)
    (hid : fr.id.isSome = true) (hname : fr.name.isSome = true)
    (hr : fr.response = some r) (ho : r.output = some o) (he : r.error = some e)
    (hne : e ≠ "") :
    ChatMessage.tool [{ toolCallId := fr.id, toolName := fr.name, result := "Error: " ++ e }]
      ∈ functionResponseMessages parts := by
  have hvalid : isValidFunctionResponse p = true := by
    simp [isValidFunctionResponse, hfr, hr, hid, hname, ho]
  have hpf : p ∈ parts.filter isValidFunctionResponse :=
    List.mem_filter.mpr ⟨hp, hvalid⟩
  have hempty : (parts.filter isValidFunctionResponse).isEmpty = false := by
    cases h : parts.filter isValidFunctionResponse with
    | nil => rw [h] at hpf; cases hpf
    | cons a l => rfl
  unfold functionResponseMessages
  rw [hempty]
  simp only [Bool.false_eq_true, if_false]
  apply List.mem_append_left
  apply List.mem_map.mpr
  refine ⟨p, hpf, ?_⟩
  simp [hfr, toolResultOf, hr, he, hne]

/-- C3, witness: `output:"ok"`, `error:"bad"` converts to `"Error: bad"`. -/
theorem claim_C3_witness :
    ChatMessage.tool [{ toolCallId := some "1", toolName := some "t", result := "Error: bad" }]
      ∈ functionResponseMessages [c3part] :=
  claim_C3 [c3part] c3part
    { id := some "1", name := some "t",
      response := some { output := some "ok", error := some "bad" } }
    { output := some "ok", error := some "bad" } "ok" "bad"
    (List.mem_singleton.mpr rfl) rfl rfl rfl rfl rfl rfl (by decide)

/-- C4: `toGeminiResponse` emits a candidate iff the backend result has
non-empty text or at least one tool call; when emitted, the candidate's
parts are the text part (if any) followed by one function-call part per
tool call, in order; usage metadata is always present, absent fields
defaulting to zero. -/
theorem claim_C4 (result : GenerateTextResult) :
    ((toGeminiResponse result).candidates.isSome ↔
        result.text ≠ "" ∨ result.toolCalls.getD [] ≠ []) ∧
    (toGeminiResponse result).candidates =
      (if result.text = "" ∧ (result.toolCalls.getD []).isEmpty = true then none
       else
         some [Candidate.mk
           (Content.mk (some "model")
             (some ((if result.text = "" then ([] : List Part)
                     else [{ text := some result.text }]) ++
               (result.toolCalls.getD []).map
                 (fun tc => Part.mk none none
                   (some (FunctionCallField.mk (some tc.toolName) (some tc.args))) none))))
           0 []]) ∧
    (toGeminiResponse result).usageMetadata =
      some (UsageMetadata.mk ((result.usage.map (·.promptTokens)).getD 0)
        ((result.usage.map (·.completionTokens)).getD 0)
        ((result.usage.map (·.totalTokens)).getD 0)) := by
  unfold toGeminiResponse responseParts
  by_cases ht : result.text = "" <;>
    cases htc : (result.toolCalls.getD []).isEmpty <;>
      simp_all [List.isEmpty_iff, List.isEmpty_eq_false]

/-- Every message of `textMessages` is a plain text message (rank 0). -/
theorem mem_textMessages_rank (role : Option String) (parts : List Part) :
    ∀ m ∈ textMessages role parts, messageRank m = 0 := by
  intro m hm
  unfold textMessages at hm
  split at hm
  · cases hm
  · split at hm <;> simp_all [messageRank]

/-- Every message of `imageMessages` is the image message (rank 2). -/
theorem mem_imageMessages_rank (parts : List Part) :
    ∀ m ∈ imageMessages parts, messageRank m = 2 := by
  intro m hm
  unfold imageMessages at hm
  split at hm
  · cases hm
  · split at hm
    · cases hm
    · split at hm
      · simp_all [messageRank]
      · cases hm

/-- Every message of `functionCallMessages` is the tool-call message
(rank 3). -/
theorem mem_functionCallMessages_rank (gid : Nat → String) (parts : List Part) :
    ∀ m ∈ functionCallMessages gid parts, messageRank m = 3 := by
  intro m hm
  unfold functionCallMessages at hm
  split at hm
  · cases hm
  · simp_all [messageRank]

/-- A list mapping to ranks that are `≤ k` on the left part and `≥ k` on
the right part, each part sorted, maps to a sorted rank list. -/
theorem sorted_map_append (f : ChatMessage → Nat) (l₁ l₂ : List ChatMessage) (k : Nat)
    (h₁ : ∀ x ∈ l₁, f x ≤ k) (h₂ : ∀ x ∈ l₂, k ≤ f x)
    (s₁ : List.Sorted (· ≤ ·) (l₁.map f)) (s₂ : List.Sorted (· ≤ ·) (l₂.map f)) :
    List.Sorted (· ≤ ·) ((l₁ ++ l₂).map f) := by
  rw [List.map_append, List.Sorted, List.pairwise_append]
  refine ⟨s₁, s₂, ?_⟩
  intro a ha b hb
  obtain ⟨x, hx, rfl⟩ := List.mem_map.mp ha
  obtain ⟨y, hy, rfl⟩ := List.mem_map.mp hb
  exact le_trans (h₁ x hx) (h₂ y hy)

/-- A list whose elements all have the same rank maps to a sorted rank
list. -/
theorem sorted_map_const (f : ChatMessage → Nat) (l : List ChatMessage) (k : Nat)
    (h : ∀ x ∈ l, f x = k) : List.Sorted (· ≤ ·) (l.map f) := by
  induction l with
  | nil => exact List.sorted_nil
  | cons a l ih =>
    rw [List.map_cons, List.sorted_cons]
    refine ⟨?_, ih (fun x hx => h x (List.mem_cons_of_mem a hx))⟩
    intro b hb
    obtain ⟨y, hy, rfl⟩ := List.mem_map.mp hb
    rw [h a (List.mem_cons_self a l), h y (List.mem_cons_of_mem a hy)]

/-- Messages of `functionResponseMessages` rank between 1 and 2. -/
theorem mem_functionResponseMessages_rank (parts : List Part) :
    ∀ m ∈ functionResponseMessages parts, 1 ≤ messageRank m ∧ messageRank m ≤ 2 := by
  intro m hm
  unfold functionResponseMessages at hm
  split at hm
  · cases hm
  · rcases List.mem_append.mp hm with h | h
    · obtain ⟨p, _, rfl⟩ := List.mem_map.mp h
      exact ⟨le_refl 1, by simp [messageRank]⟩
    · rw [mem_imageMessages_rank parts m h]
      exact ⟨by omega, le_refl 2⟩

/-- The messages of `functionResponseMessages` are rank sorted (the
tool-result messages precede the image message). -/
theorem sorted_functionResponseMessages (parts : List Part) :
    List.Sorted (· ≤ ·) ((functionResponseMessages parts).map messageRank) := by
  unfold functionResponseMessages
  split
  · exact List.sorted_nil
  · apply sorted_map_append messageRank _ _ 2
    · intro x hx
      obtain ⟨p, _, rfl⟩ := List.mem_map.mp hx
      simp [messageRank]
    · intro x hx
      rw [mem_imageMessages_rank parts x hx]
    · apply sorted_map_const messageRank _ 1
      intro x hx
      obtain ⟨p, _, rfl⟩ := List.mem_map.mp hx
      rfl
    · exact sorted_map_const messageRank _ 2 (mem_imageMessages_rank parts)

/-- C1, counterexample.  On a block holding a text part, a valid
function-response part, a valid function-call part and an image part, the
image message is emitted before the tool-call message, contradicting the
claimed text → tool-result → tool-call → image order. -/
theorem claim_C1_counterexample :
    imageOccursBeforeCalls
        (toOpenAIMessages (fun _ => "x")
          { contents := ContentListUnion.one (ContentItem.content
              { role := some "user"
                parts := some
                  [textPart "t", frPart "1" "f" (some "ok") none, fcPart "g",
                   imgPart "image/png" "AAEC"] })
            systemInstruction := none }) = true := rfl

/-- C1, amended: per content block, the emitted messages are ordered
text messages → tool-result messages → image message → tool-call
message (the image message precedes the tool-call message, not the other
way round). -/
theorem claim_C1 (gid : Nat → String) (c : Content) :
    List.Sorted (· ≤ ·) ((blockMessages gid c).map messageRank) := by
  unfold blockMessages
  apply sorted_map_append messageRank _ _ 2
  · intro x hx
    rcases List.mem_append.mp hx with h | h
    · have := mem_textMessages_rank _ _ x h
      omega
    · exact (mem_functionResponseMessages_rank _ x h).2
  · intro x hx
    have := mem_functionCallMessages_rank gid _ x hx
    omega
  · apply sorted_map_append messageRank _ _ 1
    · intro x hx
      have := mem_textMessages_rank _ _ x hx
      omega
    · intro x hx
      exact (mem_functionResponseMessages_rank _ x hx).1
    · exact sorted_map_const messageRank _ 0 (mem_textMessages_rank _ _)
    · exact sorted_functionResponseMessages _
  · exact sorted_map_const messageRank _ 3 (mem_functionCallMessages_rank gid _)

/-- C8, counterexample.  The claim promises an image message for the
first *qualifying* image part of a function-response block; the code only
examines the first part carrying `inlineData` — when that one does not
qualify (here: a PDF), the qualifying image part after it is ignored and
no image message is emitted. -/
theorem claim_C8_counterexample :
    hasImageMessage
        (toOpenAIMessages (fun _ => "x")
          { contents := ContentListUnion.one (ContentItem.content
              { role := some "user"
                parts := some
                  [frPart "1" "f" (some "ok") none, imgPart "application/pdf" "AAEC",
                   imgPart "image/png" "AAEC"] })
            systemInstruction := none }) = false := rfl

/-- C8, amended: for a block with at least one valid function-response
part, when the *first* part carrying `inlineData` qualifies (mime type
starting with `image/`, non-empty data) a follow-up user message with the
base64-decoded bytes is emitted; and a block never yields more than one
image message. -/
theorem claim_C8 :
    (∀ (parts : List Part) (p : Part) (d : InlineData) (m data : String),
        (parts.filter isValidFunctionResponse).isEmpty = false →
        (parts.filter (fun q => q.inlineData.isSome)).head? = some p →
        p.inlineData = some d → d.mimeType = some m → d.data = some data →
        jsStartsWith m "image/" = true → data ≠ "" →
        ChatMessage.userImage (base64Decode data) m ∈ functionResponseMessages parts) ∧
    (∀ (gid : Nat → String) (c : Content),
        ((blockMessages gid c).filter isImageMessage).length ≤ 1) := by
  constructor
  · intro parts p d m data hfr hhead hd hm hdata hmi hne
    unfold functionResponseMessages
    rw [hfr]
    simp only [Bool.false_eq_true, if_false]
    apply List.mem_append_right
    unfold imageMessages
    rw [hhead]
    simp [hd, hm, hdata, hmi, hne]
  · intro gid c
    unfold blockMessages
    rw [List.filter_append, List.filter_append, List.length_append, List.length_append]
    have h1 : (textMessages (mapRole c.role) (c.parts.getD [])).filter isImageMessage = [] := by
      rw [List.filter_eq_nil_iff]
      intro a ha
      have := mem_textMessages_rank _ _ a ha
      cases a <;> simp_all [messageRank, isImageMessage]
    have h3 : (functionCallMessages gid (c.parts.getD [])).filter isImageMessage = [] := by
      rw [List.filter_eq_nil_iff]
      intro a ha
      have := mem_functionCallMessages_rank gid _ a ha
      cases a <;> simp_all [messageRank, isImageMessage]
    have h2 : ((functionResponseMessages (c.parts.getD [])).filter isImageMessage).length ≤ 1 := by
      unfold functionResponseMessages
      split
      · simp
      · rw [List.filter_append, List.length_append]
        have htools :
            ((List.filter isValidFunctionResponse (c.parts.getD [])).map
                (fun p => ChatMessage.tool
                  [toolResultOf
                    (p.functionResponse.getD { id := none, name := none, response := none })])).filter
              isImageMessage = [] := by
          rw [List.filter_eq_nil_iff]
          intro a ha
          obtain ⟨q, _, rfl⟩ := List.mem_map.mp ha
          simp [isImageMessage]
        rw [htools]
        have himg : ((imageMessages (c.parts.getD [])).filter isImageMessage).length ≤ 1 := by
          calc ((imageMessages (c.parts.getD [])).filter isImageMessage).length
              ≤ (imageMessages (c.parts.getD [])).length := List.length_filter_le _ _
            _ ≤ 1 := by
                unfold imageMessages
                split
                · simp
                · split
                  · simp
                  · split <;> simp
        simpa using himg
    rw [h1, h3]
    simpa using h2

/-- C8, witness. -/
theorem claim_C8_witness :
    ChatMessage.userImage (base64Decode "AAEC") "image/png"
      ∈ functionResponseMessages
          [frPart "1" "f" (some "ok") none, imgPart "image/png" "AAEC"] ∧
    ((blockMessages (fun _ => "x")
        { role := some "user", parts := some [] }).filter isImageMessage).length ≤ 1 :=
  ⟨claim_C8.1 [frPart "1" "f" (some "ok") none, imgPart "image/png" "AAEC"]
      (imgPart "image/png" "AAEC")
      { mimeType := some "image/png", data := some "AAEC" } "image/png" "AAEC"
      rfl rfl rfl rfl rfl rfl (by decide),
    claim_C8.2 (fun _ => "x") { role := some "user", parts := some [] }⟩

/-- The fuel of `jsSplitF` is irrelevant once it covers the input length. -/
theorem jsSplitF_congr (pat : List Char) :
    ∀ (f₁ : Nat) (hay : List Char) (f₂ : Nat), hay.length ≤ f₁ → hay.length ≤ f₂ →
      jsSplitF pat f₁ hay = jsSplitF pat f₂ hay := by
  intro f₁
  induction f₁ with
  | zero =>
    intro hay f₂ h₁ h₂
    have hn : hay = [] := List.eq_nil_of_length_eq_zero (Nat.le_zero.mp h₁)
    subst hn
    cases f₂ <;> rfl
  | succ f ih =>
    intro hay f₂ h₁ h₂
    cases hay with
    | nil => cases f₂ <;> rfl
    | cons c t =>
      obtain ⟨f₂', rfl⟩ : ∃ f₂', f₂ = f₂' + 1 := ⟨f₂ - 1, by simp at h₂; omega⟩
      simp only [jsSplitF]
      by_cases hc : pat ≠ [] ∧ pat.isPrefixOf (c :: t)
      · rw [if_pos hc, if_pos hc]
        have hplen : 0 < pat.length := List.length_pos.mpr hc.1
        rw [List.length_cons] at h₁ h₂
        have hd : ((c :: t).drop pat.length).length ≤ f := by
          rw [List.length_drop, List.length_cons]
          omega
        have hd₂ : ((c :: t).drop pat.length).length ≤ f₂' := by
          rw [List.length_drop, List.length_cons]
          omega
        rw [ih _ f₂' hd hd₂]
      · rw [if_neg hc, if_neg hc]
        rw [List.length_cons] at h₁ h₂
        rw [ih t f₂' (by omega) (by omega)]

/-- Splitting the empty string. -/
theorem jsSplit_nil (pat : List Char) : jsSplit pat [] = [[]] := rfl

/-- Splitting step at a separator occurrence. -/
theorem jsSplit_cons_pos {pat : List Char} (hpat : pat ≠ []) {c : Char} {t : List Char}
    (hpp : pat.isPrefixOf (c :: t) = true) :
    jsSplit pat (c :: t) = [] :: jsSplit pat ((c :: t).drop pat.length) := by
  show jsSplitF pat (t.length + 1) (c :: t) = _
  simp only [jsSplitF]
  rw [if_pos ⟨hpat, hpp⟩]
  congr 1
  apply jsSplitF_congr
  · rw [List.length_drop, List.length_cons]
    have := List.length_pos.mpr hpat
    omega
  · exact le_refl _

/-- Splitting step at a non-occurrence position. -/
theorem jsSplit_cons_neg {pat : List Char} {c : Char} {t s : List Char}
    {rest : List (List Char)} (hpp : pat.isPrefixOf (c :: t) = false)
    (hsp : jsSplit pat t = s :: rest) :
    jsSplit pat (c :: t) = (c :: s) :: rest := by
  show jsSplitF pat (t.length + 1) (c :: t) = _
  simp only [jsSplitF]
  rw [if_neg (by simp [hpp])]
  rw [show jsSplitF pat t.length t = jsSplit pat t from rfl, hsp]

/-- Splitting step at a separator occurrence, for unstructured input. -/
theorem jsSplit_pos {pat hay : List Char} (hpat : pat ≠ [])
    (hpp : pat.isPrefixOf hay = true) :
    jsSplit pat hay = [] :: jsSplit pat (hay.drop pat.length) := by
  cases hay with
  | nil =>
    have hpre := List.isPrefixOf_iff_prefix.mp hpp
    exact absurd (List.prefix_nil.mp hpre) hpat
  | cons c t => exact jsSplit_cons_pos hpat hpp

/-- A list is a prefix of itself followed by anything. -/
theorem isPrefixOf_append_self (l r : List Char) : l.isPrefixOf (l ++ r) = true :=
  List.isPrefixOf_iff_prefix.mpr (List.prefix_append l r)

/-- A prefix occurrence is an occurrence. -/
theorem containsSub_of_prefix {hay pat : List Char} (h : pat.isPrefixOf hay = true) :
    containsSub hay pat = true := by
  cases hay with
  | nil =>
    have hpre := List.isPrefixOf_iff_prefix.mp h
    have h0 : pat = [] := List.prefix_nil.mp hpre
    subst h0
    rfl
  | cons c t => simp [containsSub, h]

/-- A visible occurrence in the middle of a concatenation is found. -/
theorem containsSub_append_self (u pat v : List Char) :
    containsSub (u ++ pat ++ v) pat = true := by
  induction u with
  | nil =>
    simp only [List.nil_append]
    exact containsSub_of_prefix (isPrefixOf_append_self pat v)
  | cons c u' ih =>
    show containsSub (c :: (u' ++ pat ++ v)) pat = true
    simp only [containsSub, ih, Bool.or_true]

/-- `jsSplit` never returns the empty list (non-empty separator). -/
theorem jsSplit_ne_nil {pat : List Char} (hpat : pat ≠ []) (hay : List Char) :
    jsSplit pat hay ≠ [] := by
  induction hay with
  | nil => simp [jsSplit_nil]
  | cons c t ih =>
    cases hpp : pat.isPrefixOf (c :: t)
    · rcases hsp : jsSplit pat t with _ | ⟨s, rest⟩
      · exact absurd hsp ih
      · rw [jsSplit_cons_neg hpp hsp]
        simp
    · rw [jsSplit_cons_pos hpat hpp]
      simp

/-- If the separator never occurs, `jsSplit` returns the whole input. -/
theorem jsSplit_eq_single {pat hay : List Char} (h : containsSub hay pat = false) :
    jsSplit pat hay = [hay] := by
  induction hay with
  | nil => rfl
  | cons c t ih =>
    have h1 : pat.isPrefixOf (c :: t) = false ∧ containsSub t pat = false := by
      constructor
      · cases hp : pat.isPrefixOf (c :: t)
        · rfl
        · rw [containsSub, hp, Bool.true_or] at h
          exact h
      · cases hct : containsSub t pat
        · rfl
        · rw [containsSub, hct, Bool.or_true] at h
          exact h
    exact jsSplit_cons_neg h1.1 (ih h1.2)

/-- A prefix occurrence of a border-free `pat` in `b ++ pat ++ rest` that
starts inside the non-empty `b` would force a border of `pat`. -/
theorem border_of_prefix {pat b rest : List Char} (hb : b ≠ [])
    (hlen : b.length < pat.length) (h : pat <+: b ++ pat ++ rest) :
    hasBorder pat = true := by
  have htake : pat = (b ++ (pat ++ rest)).take pat.length := by
    have := List.prefix_iff_eq_take.mp h
    simpa [List.append_assoc] using this
  rw [List.take_append_eq_append_take] at htake
  rw [List.take_of_length_le (le_of_lt hlen)] at htake
  rw [List.take_append_of_le_length (by omega)] at htake
  -- `htake : pat = b ++ pat.take (pat.length - b.length)`
  have hbpos : 0 < b.length := List.length_pos.mpr hb
  rw [hasBorder, List.any_eq_true]
  refine ⟨pat.length - b.length, List.mem_range.mpr (by omega), ?_⟩
  rw [Bool.and_eq_true]
  constructor
  · simp
    omega
  · have hdrop : pat.drop (pat.length - (pat.length - b.length)) =
        pat.take (pat.length - b.length) := by
      have hb' : pat.length - (pat.length - b.length) = b.length := by omega
      rw [hb']
      conv_lhs => rw [htake]
      exact List.drop_left b _
    rw [hdrop]
    exact beq_self_eq_true _

/-- Splitting at a visible leading occurrence of a border-free separator
that does not occur in `b`. -/
theorem jsSplit_append {pat : List Char} (hpat : pat ≠ []) (hnb : hasBorder pat = false)
    (b rest : List Char) (hb : containsSub b pat = false) :
    jsSplit pat (b ++ pat ++ rest) = b :: jsSplit pat rest := by
  induction b with
  | nil =>
    rw [List.nil_append, jsSplit_pos hpat (isPrefixOf_append_self pat rest),
      List.drop_left pat rest]
  | cons c b' ih =>
    have hsplit : pat.isPrefixOf (c :: b') = false ∧ containsSub b' pat = false := by
      constructor
      · cases hp : pat.isPrefixOf (c :: b')
        · rfl
        · rw [containsSub, hp, Bool.true_or] at hb
          exact hb
      · cases hct : containsSub b' pat
        · rfl
        · rw [containsSub, hct, Bool.or_true] at hb
          exact hb
    have harr : (c :: b') ++ pat ++ rest = c :: (b' ++ pat ++ rest) := by simp
    have hnp : pat.isPrefixOf (c :: (b' ++ pat ++ rest)) = false := by
      cases hpp : pat.isPrefixOf (c :: (b' ++ pat ++ rest))
      · rfl
      · exfalso
        have hpre : pat <+: (c :: b') ++ pat ++ rest := by
          rw [harr]
          exact List.isPrefixOf_iff_prefix.mp hpp
        by_cases hl : pat.length ≤ (c :: b').length
        · have htk : pat = ((c :: b') ++ (pat ++ rest)).take pat.length := by
            have := List.prefix_iff_eq_take.mp hpre
            simpa [List.append_assoc] using this
          rw [List.take_append_of_le_length hl] at htk
          have hppre : pat.isPrefixOf (c :: b') = true := by
            apply List.isPrefixOf_iff_prefix.mpr
            rw [htk]
            exact List.take_prefix _ _
          rw [hsplit.1] at hppre
          cases hppre
        · have := border_of_prefix (b := c :: b') (by simp) (by simp at hl ⊢; omega) hpre
          rw [hnb] at this
          cases this
    rw [harr, jsSplit_cons_neg hnp (ih hsplit.2)]

/-- The separator occurs iff splitting yields at least two pieces. -/
theorem containsSub_iff_two_le {pat : List Char} (hpat : pat ≠ []) (hay : List Char) :
    containsSub hay pat = true ↔ 2 ≤ (jsSplit pat hay).length := by
  induction hay with
  | nil =>
    rw [jsSplit_nil]
    constructor
    · intro h
      rw [show containsSub [] pat = pat.isEmpty from rfl] at h
      exact absurd (List.isEmpty_iff.mp h) hpat
    · intro h
      simp at h
  | cons c t ih =>
    cases hpp : pat.isPrefixOf (c :: t)
    · rw [show containsSub (c :: t) pat = (pat.isPrefixOf (c :: t) || containsSub t pat) from rfl,
        hpp, Bool.false_or]
      rcases hsp : jsSplit pat t with _ | ⟨s, rest⟩
      · exact absurd hsp (jsSplit_ne_nil hpat t)
      · rw [jsSplit_cons_neg hpp hsp, ih, hsp]
        simp
    · rw [show containsSub (c :: t) pat = (pat.isPrefixOf (c :: t) || containsSub t pat) from rfl,
        hpp, Bool.true_or]
      rw [jsSplit_cons_pos hpat hpp]
      have hne := jsSplit_ne_nil hpat ((c :: t).drop pat.length)
      constructor
      · intro _
        rcases hsp : jsSplit pat ((c :: t).drop pat.length) with _ | ⟨s, rest⟩
        · exact absurd hsp hne
        · simp [hsp]
      · intro _
        rfl

/-- C5, counterexample.  The claim demands the input back unchanged when
no matching wrapper pair exists; on `"</think>a<think>"` (both tags
present but the closing tag first) `extractAnswer` crashes instead of
returning any string. -/
theorem claim_C5_counterexample :
    extractAnswer ("</think>a<think>".toList) = none := rfl

/-- C5, amended: when the input decomposes as `b ++ "<think>" ++ x ++
"</think>" ++ a` with the opening tag not occurring in `b` or again
later, and the closing tag not occurring in `x` or `a`, `extractAnswer`
returns the text before the opening tag and the text after the closing
tag, both trimmed, joined with a single space, the result trimmed; an
input with no matching pair of either kind is returned unchanged.  (On
the remaining inputs the function crashes, see C10.) -/
theorem claim_C5 :
    (∀ b x a : List Char,
        containsSub b thinkOpen = false →
        containsSub (x ++ thinkClose ++ a) thinkOpen = false →
        containsSub x thinkClose = false →
        containsSub a thinkClose = false →
        extractAnswer (b ++ thinkOpen ++ x ++ thinkClose ++ a) =
          some (trimL (trimL b ++ [' '] ++ trimL a))) ∧
    (∀ t : List Char,
        (containsSub t thinkOpen && containsSub t thinkClose) = false →
        (containsSub t thinkingOpen && containsSub t thinkingClose) = false →
        extractAnswer t = some t) := by
  constructor
  · intro b x a h1 h2 h3 h4
    have hto : thinkOpen ≠ [] := by decide
    have htc : thinkClose ≠ [] := by decide
    have hnb1 : hasBorder thinkOpen = false := by decide
    have hnb2 : hasBorder thinkClose = false := by decide
    have hassoc : b ++ thinkOpen ++ x ++ thinkClose ++ a =
        b ++ thinkOpen ++ (x ++ thinkClose ++ a) := by
      simp [List.append_assoc]
    have hs1 : jsSplit thinkOpen (b ++ thinkOpen ++ x ++ thinkClose ++ a) =
        [b, x ++ thinkClose ++ a] := by
      rw [hassoc, jsSplit_append hto hnb1 b _ h1, jsSplit_eq_single h2]
    have hs2 : jsSplit thinkClose (x ++ thinkClose ++ a) = [x, a] := by
      rw [jsSplit_append htc hnb2 x a h3, jsSplit_eq_single h4]
    have hcop : containsSub (b ++ thinkOpen ++ x ++ thinkClose ++ a) thinkOpen = true := by
      rw [hassoc]
      exact containsSub_append_self b thinkOpen _
    have hccl : containsSub (b ++ thinkOpen ++ x ++ thinkClose ++ a) thinkClose = true := by
      have hassoc' : b ++ thinkOpen ++ x ++ thinkClose ++ a =
          (b ++ thinkOpen ++ x) ++ thinkClose ++ a := by
        simp [List.append_assoc]
      rw [hassoc']
      exact containsSub_append_self _ thinkClose a
    unfold extractAnswer
    rw [if_pos (by rw [hcop, hccl]; rfl)]
    unfold extractAnswerTags
    simp only [hs1, hs2]
  · intro t hc1 hc2
    unfold extractAnswer
    rw [if_neg (by simp [hc1]), if_neg (by simp [hc2])]

/-- C5, witness. -/
theorem claim_C5_witness :
    extractAnswer ("before <think>x</think> after".toList) =
      some ("before after".toList) ∧
    extractAnswer ("no tags".toList) = some ("no tags".toList) := by
  constructor
  · have h := claim_C5.1 "before ".toList "x".toList " after".toList
      (by decide) (by decide) (by decide) (by decide)
    have harg : ("before <think>x</think> after".toList : List Char) =
        "before ".toList ++ thinkOpen ++ "x".toList ++ thinkClose ++ " after".toList := by
      decide
    rw [harg, h]
    decide
  · exact claim_C5.2 "no tags".toList (by decide) (by decide)

/-- C10, counterexample.  The claim asserts `extractAnswer` returns a
string on every input whose first opening tag precedes its closing tag;
on `"<think>a<think>b</think>c"` the opening tag (index 0) precedes the
closing tag (index 16), yet the function crashes, because the split
segment between the two opening-tag occurrences holds no closing tag. -/
theorem claim_C10_counterexample :
    extractAnswer ("<think>a<think>b</think>c".toList) = none ∧
    firstIdxSub ("<think>a<think>b</think>c".toList) thinkOpen = some 0 ∧
    firstIdxSub ("<think>a<think>b</think>c".toList) thinkClose = some 16 := by
  refine ⟨rfl, ?_, ?_⟩ <;> decide

/-- C10, amended: `extractAnswer` fails to return a string exactly when,
for the first tag kind with both tags present, the split segment between
the first occurrence of the opening tag and the next occurrence (or the
end of input) does not contain the closing tag — in particular when the
closing tag only occurs before the first opening tag, but also when a
second opening tag intervenes; on every other input a string is
returned. -/
theorem claim_C10 (t : List Char) :
    (extractAnswer t).isSome = true ↔
      ((containsSub t thinkOpen && containsSub t thinkClose) = true →
        containsSub ((jsSplit thinkOpen t).getD 1 []) thinkClose = true) ∧
      ((containsSub t thinkOpen && containsSub t thinkClose) = false →
        (containsSub t thinkingOpen && containsSub t thinkingClose) = true →
        containsSub ((jsSplit thinkingOpen t).getD 1 []) thinkingClose = true) := by
  have key : ∀ st en : List Char, st ≠ [] → en ≠ [] →
      containsSub t st = true →
      ((extractAnswerTags st en t).isSome = true ↔
        containsSub ((jsSplit st t).getD 1 []) en = true) := by
    intro st en hst hen hcon
    have h2 := (containsSub_iff_two_le hst t).mp hcon
    rcases hsp : jsSplit st t with _ | ⟨b, rest1⟩
    · exact absurd hsp (jsSplit_ne_nil hst t)
    rcases rest1 with _ | ⟨p1, rest⟩
    · rw [hsp] at h2
      simp at h2
    rcases hsp2 : jsSplit en p1 with _ | ⟨q, rest2⟩
    · exact absurd hsp2 (jsSplit_ne_nil hen p1)
    rcases rest2 with _ | ⟨a1, r⟩
    · unfold extractAnswerTags
      simp only [hsp, hsp2, List.getD_cons_succ, List.getD_cons_zero]
      rw [containsSub_iff_two_le hen p1, hsp2]
      simp
    · unfold extractAnswerTags
      simp only [hsp, hsp2, List.getD_cons_succ, List.getD_cons_zero]
      rw [containsSub_iff_two_le hen p1, hsp2]
      simp
  by_cases hc1 : (containsSub t thinkOpen && containsSub t thinkClose) = true
  · have hcon : containsSub t thinkOpen = true := by
      cases h : containsSub t thinkOpen
      · rw [h, Bool.false_and] at hc1
        cases hc1
      · rfl
    have hEA : extractAnswer t = extractAnswerTags thinkOpen thinkClose t := by
      unfold extractAnswer
      rw [if_pos hc1]
    rw [hEA, key thinkOpen thinkClose (by decide) (by decide) hcon]
    constructor
    · intro h
      exact ⟨fun _ => h, fun hfalse _ => by rw [hc1] at hfalse; cases hfalse⟩
    · intro h
      exact h.1 hc1
  · have hc1' : (containsSub t thinkOpen && containsSub t thinkClose) = false :=
      Bool.eq_false_iff.mpr hc1
    by_cases hc2 : (containsSub t thinkingOpen && containsSub t thinkingClose) = true
    · have hcon : containsSub t thinkingOpen = true := by
        cases h : containsSub t thinkingOpen
        · rw [h, Bool.false_and] at hc2
          cases hc2
        · rfl
      have hEA : extractAnswer t = extractAnswerTags thinkingOpen thinkingClose t := by
        unfold extractAnswer
        rw [if_neg hc1, if_pos hc2]
      rw [hEA, key thinkingOpen thinkingClose (by decide) (by decide) hcon]
      constructor
      · intro h
        exact ⟨fun htrue => absurd htrue hc1, fun _ _ => h⟩
      · intro h
        exact h.2 hc1' hc2
    · have hEA : extractAnswer t = some t := by
        unfold extractAnswer
        rw [if_neg hc1, if_neg hc2]
      rw [hEA]
      simp only [Option.isSome_some]
      constructor
      · intro _
        exact ⟨fun htrue => absurd htrue hc1, fun _ htrue => absurd htrue hc2⟩
      · intro _
        trivial

/-- C6, counterexample.  The claim promises an absent/undefined result in
every non-success case; on an output whose trimmed text starts with
`<think` and whose think-tag strip crashes (closing tag only inside the
segment after a second opening tag), `extractJsonFromLLMOutput` yields no
result at all instead of `undefined`, for any parser. -/
theorem claim_C6_counterexample :
    extractJsonFromLLMOutput (fun _ => none) ("<think>a<think>b</think>".toList) = none := rfl

/-- C6, amended: when the think-tag strip step succeeds (yielding `out`),
the extractor returns the direct parse of `out` when that succeeds;
otherwise, when a ```` ```json ```` opening and a last ```` ``` ````
marker are both found, it returns the parse of the substring between
them on success and `undefined` on failure; when either marker is
missing it returns `undefined` — never a fabricated object.  When the
strip step crashes, no result is produced at all (the C6 counterexample;
this is the one divergence from the claim). -/
theorem claim_C6 (parse : List Char → Option Json) (output out : List Char)
    (hstrip : strippedOutput output = some out) :
    (∀ j, parse out = some j → extractJsonFromLLMOutput parse output = some (some j)) ∧
    (∀ s e, parse out = none → firstIdxSub out "```json".toList = some s →
        lastIdxSub out "```".toList = some e →
        extractJsonFromLLMOutput parse output = some (parse (jsSubstring out (s + 7) e))) ∧
    (parse out = none →
        firstIdxSub out "```json".toList = none ∨ lastIdxSub out "```".toList = none →
        extractJsonFromLLMOutput parse output = some none) := by
  refine ⟨?_, ?_, ?_⟩
  · intro j hj
    simp only [extractJsonFromLLMOutput, hstrip, hj]
  · intro s e hp hs he
    rcases hps : parse (jsSubstring out (s + 7) e) with _ | j <;>
      simp only [extractJsonFromLLMOutput, hstrip, hp, hs, he, hps]
  · intro hp hfence
    rcases hfence with h | h
    · rcases hl : lastIdxSub out "```".toList with _ | e <;>
        simp only [extractJsonFromLLMOutput, hstrip, hp, h, hl]
    · rcases hf : firstIdxSub out "```json".toList with _ | s <;>
        simp only [extractJsonFromLLMOutput, hstrip, hp, h, hf]

/-- C6, witness. -/
theorem claim_C6_witness :
    extractJsonFromLLMOutput
        (fun l => if l = "[1]".toList then some (Json.arr [Json.num 1]) else none)
        ("```json[1]```".toList) = some (some (Json.arr [Json.num 1])) := by
  have h := (claim_C6
      (fun l => if l = "[1]".toList then some (Json.arr [Json.num 1]) else none)
      ("```json[1]```".toList) ("```json[1]```".toList) rfl).2.1 0 10
      rfl (by decide) (by decide)
  rw [h]
  rfl

/-- Ceiling of a quotient of naturals. -/
theorem ceil_natCast_div (a b : ℕ) (hb : 0 < b) :
    ⌈(a : ℚ) / (b : ℚ)⌉ = (((a + b - 1) / b : ℕ) : ℤ) := by
  rw [Int.ceil_eq_iff]
  have hbQ : (0 : ℚ) < (b : ℚ) := by exact_mod_cast hb
  have hA : a ≤ ((a + b - 1) / b) * b := by
    have h1 := Nat.div_mul_le_self (a + b - 1) b
    have h2 := Nat.lt_div_mul_add (a := a + b - 1) hb
    omega
  have hB : ((a + b - 1) / b) * b < a + b := by
    have h1 := Nat.div_mul_le_self (a + b - 1) b
    omega
  have hcast : ((((a + b - 1) / b : ℕ) : ℤ) : ℚ) = (((a + b - 1) / b : ℕ) : ℚ) :=
    Int.cast_natCast _
  rw [hcast]
  constructor
  · rw [lt_div_iff₀ hbQ]
    have hB' : ((((a + b - 1) / b : ℕ) : ℚ)) * (b : ℚ) < (a : ℚ) + (b : ℚ) := by
      exact_mod_cast hB
    have hring : ((((a + b - 1) / b : ℕ) : ℚ) - 1) * (b : ℚ) =
        (((a + b - 1) / b : ℕ) : ℚ) * (b : ℚ) - (b : ℚ) := by ring
    rw [hring]
    linarith
  · rw [div_le_iff₀ hbQ]
    exact_mod_cast hA

/-- `ratCeil` agrees with the mathematical ceiling on non-negative
rationals. -/
theorem ratCeil_eq_ceil (q : ℚ) (h : 0 ≤ q) : ratCeil q = ⌈q⌉ := by
  have hden : 0 < q.den := Nat.pos_of_ne_zero q.den_nz
  have hnum : 0 ≤ q.num := Rat.num_nonneg.mpr h
  have h1 : (q.num + (q.den : ℤ) - 1).toNat = q.num.toNat + q.den - 1 := by omega
  have hratCeil : ratCeil q = (((q.num.toNat + q.den - 1) / q.den : ℕ) : ℤ) := by
    rw [ratCeil, h1]
  have htn : ((q.num.toNat : ℕ) : ℚ) = ((q.num : ℤ) : ℚ) := by
    exact_mod_cast Int.toNat_of_nonneg hnum
  have hq : q = ((q.num.toNat : ℕ) : ℚ) / ((q.den : ℕ) : ℚ) := by
    rw [htn]
    exact (Rat.num_div_den q).symm
  rw [hratCeil]
  conv_rhs => rw [hq]
  rw [ceil_natCast_div q.num.toNat q.den hden]

/-- The token estimate in pure natural arithmetic: the inner whitespace
ceiling and the outer ceiling over tenths expressed with `Nat` division. -/
theorem countTokensText_natFormula (text : List Char) :
    countTokensText text =
      (((12 * countEnglishWords text + 10 * countCJK text + 8 * countStandaloneNumbers text +
        5 * countPunct text + 10 * ((countSpaceRuns text + 4) / 5) + 9) / 10 : ℕ) : ℤ) := by
  unfold countTokensText
  have hinner : ratCeil ((countSpaceRuns text : ℚ) / 5) =
      (((countSpaceRuns text + 4) / 5 : ℕ) : ℤ) := by
    rw [ratCeil_eq_ceil _ (by positivity),
      show ((5 : ℚ)) = ((5 : ℕ) : ℚ) from by norm_num,
      ceil_natCast_div (countSpaceRuns text) 5 (by norm_num)]
    omega
  rw [hinner]
  have hsum : (6 / 5 : ℚ) * countEnglishWords text + countCJK text +
      (4 / 5 : ℚ) * countStandaloneNumbers text + (1 / 2 : ℚ) * countPunct text +
      (((((countSpaceRuns text + 4) / 5 : ℕ) : ℤ)) : ℚ) =
      ((12 * countEnglishWords text + 10 * countCJK text + 8 * countStandaloneNumbers text +
        5 * countPunct text + 10 * ((countSpaceRuns text + 4) / 5) : ℕ) : ℚ) / ((10 : ℕ) : ℚ) := by
    generalize (countSpaceRuns text + 4) / 5 = s
    push_cast
    ring
  rw [hsum, ratCeil_eq_ceil _ (by positivity), ceil_natCast_div _ 10 (by norm_num)]
  omega

/-- C9, counterexample.  On the request whose concatenated message text
is `". "` (one punctuation character, one whitespace run) the claimed
single-ceiling formula gives 1 while `countTokens` gives 2: the code
rounds the whitespace-run term up separately before the outer ceiling. -/
theorem claim_C9_counterexample :
    countTokens (fun _ => "x")
        { contents := ContentListUnion.one (ContentItem.str ". ")
          systemInstruction := none } = 2 ∧
    claimedTokens (". ".toList) = 1 := by
  constructor
  · show countTokensText (requestText (fun _ => "x")
      { contents := ContentListUnion.one (ContentItem.str ". "), systemInstruction := none }) = 2
    rw [countTokensText_natFormula]
    rfl
  · unfold claimedTokens
    rw [show countEnglishWords (". ".toList) = 0 from rfl,
      show countCJK (". ".toList) = 0 from rfl,
      show countStandaloneNumbers (". ".toList) = 0 from rfl,
      show countPunct (". ".toList) = 1 from rfl,
      show countSpaceRuns (". ".toList) = 1 from rfl]
    rw [ratCeil_eq_ceil _ (by norm_num)]
    rw [Int.ceil_eq_iff]
    norm_num

/-- C9, amended: for every request, `countTokens` returns the ceiling of
`1.2·words + 1·cjk + 0.8·numbers + 0.5·punctuation + ⌈whitespaceRuns/5⌉`
over the concatenated message text — the whitespace-run term is itself
rounded up before the outer ceiling (here in `Nat` division form) — and
the estimate of the empty text is 0. -/
theorem claim_C9 (gid : Nat → String) (request : GenRequest) :
    countTokens gid request =
      (((12 * countEnglishWords (requestText gid request) +
        10 * countCJK (requestText gid request) +
        8 * countStandaloneNumbers (requestText gid request) +
        5 * countPunct (requestText gid request) +
        10 * ((countSpaceRuns (requestText gid request) + 4) / 5) + 9) / 10 : ℕ) : ℤ) ∧
    countTokensText [] = 0 :=
  ⟨countTokensText_natFormula (requestText gid request), by
    rw [countTokensText_natFormula []]
    rfl⟩

/-- `jsonTypeToZod` never marks the schema it returns optional: the
`.optional()` wrapper is applied only by the object-shape construction. -/
theorem jsonTypeToZod_not_optional (p : Json) :
    isOptionalSchema (jsonTypeToZod p) = false := by
  have hdw : ∀ base, isOptionalSchema base = false →
      isOptionalSchema (describeWrap p base) = false := by
    intro base hb
    unfold describeWrap
    split
    · split
      · rfl
      · exact hb
    · exact hb
  rw [jsonTypeToZod]
  split
  · apply hdw
    split
    · split
      · split <;> rfl
      · rfl
    · rfl
    · rfl
    · rfl
    · split <;> rfl
    · rfl
    · rfl
  · rfl

/-- C7: for every usable object declaration the compiled schema is an
object whose fields are exactly the declared properties — a property
named in `required` maps to its compiled type unwrapped (never marked
optional), a property not named there maps to its compiled type wrapped
in `.optional()`; an unusable declaration compiles to the empty object
schema. -/
theorem claim_C7 :
    (∀ (s : Json) (entries : List (String × Json)),
        isObjLike s = true → schemaEntries s = some entries →
        ∃ shape, convertJsonSchemaToZod (some s) = ZodTy.object shape ∧
          ∀ kv ∈ entries,
            (requiredHas (requiredOf s) kv.1 = true →
              (kv.1, jsonTypeToZod kv.2) ∈ shape ∧
                isOptionalSchema (jsonTypeToZod kv.2) = false) ∧
            (requiredHas (requiredOf s) kv.1 = false →
              (kv.1, ZodTy.optional (jsonTypeToZod kv.2)) ∈ shape)) ∧
    (∀ j : Option Json,
        (∀ s, j = some s → isObjLike s = false ∨ schemaEntries s = none) →
        convertJsonSchemaToZod j = ZodTy.object []) := by
  constructor
  · intro s entries hobj hent
    refine ⟨entries.map (fun kv =>
      (kv.1, if requiredHas (requiredOf s) kv.1 then jsonTypeToZod kv.2
             else ZodTy.optional (jsonTypeToZod kv.2))), ?_, ?_⟩
    · simp only [convertJsonSchemaToZod]
      rw [if_pos hobj, hent]
    · intro kv hkv
      constructor
      · intro hreq
        constructor
        · apply List.mem_map.mpr
          exact ⟨kv, hkv, by rw [if_pos hreq]⟩
        · exact jsonTypeToZod_not_optional kv.2
      · intro hreq
        apply List.mem_map.mpr
        exact ⟨kv, hkv, by rw [if_neg (by simp [hreq])]⟩
  · intro j hj
    cases j with
    | none => rfl
    | some s =>
      rcases hj s rfl with h | h
      · simp only [convertJsonSchemaToZod]
        rw [if_neg (by simp [h])]
      · simp only [convertJsonSchemaToZod]
        by_cases ho : isObjLike s = true
        · rw [if_pos ho, h]
        · rw [if_neg ho]

/-- C7, witness: the spec's example schema compiles with `x` a mandatory
string field; a bare string declaration compiles to the empty object. -/
theorem claim_C7_witness :
    (∃ shape, convertJsonSchemaToZod (some c7schema) = ZodTy.object shape ∧
        ("x", ZodTy.string) ∈ shape ∧ isOptionalSchema ZodTy.string = false) ∧
    convertJsonSchemaToZod (some (Json.str "free")) = ZodTy.object [] := by
  have hstr : jsonTypeToZod (Json.obj [("type", Json.str "string")]) = ZodTy.string := by
    rw [jsonTypeToZod]
    rfl
  constructor
  · obtain ⟨shape, hconv, hprops⟩ :=
      claim_C7.1 c7schema [("x", Json.obj [("type", Json.str "string")])] rfl rfl
    refine ⟨shape, hconv, ?_, rfl⟩
    have h := (hprops ("x", Json.obj [("type", Json.str "string")]) (by simp)).1 (by rfl)
    rw [hstr] at h
    exact h.1
  · exact claim_C7.2 (some (Json.str "free")) (fun s hs => by cases hs; exact Or.inl rfl)

end Termichat
